import Mathlib

/-!
Shallow embedding of the retrieval subsystem of the rural-healthcare-bot
repository (`backend/rag.py`) and of the urgency extraction inlined in
`generate_answer` (`backend/services/llm_service.py`).

Modelling conventions:
* Python strings are lists of characters (`PyStr`); `str.split()`,
  `str.strip()`, `str.upper()`, `" ".join(...)`, the `in` substring test and
  list indexing (including Python's negative indexing) are modelled by
  `pySplit`, `pyStrip`, `pyUpper`, `List.intercalate`, `List.IsInfix` and
  `pyGet`.
* The sentence-transformers embedder is an opaque map from text to a rational
  vector; an `Except.error` result models a raised exception.
* The FAISS `IndexFlatL2` is modelled exactly as the library behaves:
  `search` returns the `k` labels nearest by squared euclidean distance
  (ties broken by lower index) and pads the row with label `-1` when `k`
  exceeds the number of stored vectors.
* Python exceptions are `Except Unit`; the module-level globals
  (`embedder`, `faiss_index`, `guideline_chunks`) form a `RagState`, and
  `load_run` records the successive values of that global state after each
  global assignment executed by `load_guidelines`, so that statements about
  intermediate (partially updated) states can be made.
-/

/-- Python `str` modelled as a list of characters. -/
abbrev PyStr := List Char

/-- Python `text.split()`: split on whitespace runs, dropping empty pieces. -/
def pySplit (s : PyStr) : List PyStr :=
  (List.splitOnP (fun c => c.isWhitespace) s).filter fun w => !w.isEmpty

/-- Python `text.strip()`: drop leading and trailing whitespace. -/
def pyStrip (s : PyStr) : PyStr :=
  ((s.dropWhile fun c => c.isWhitespace).reverse.dropWhile fun c =>
    c.isWhitespace).reverse

/-- Python `text.upper()` (ASCII case mapping). -/
def pyUpper (s : PyStr) : PyStr := s.map Char.toUpper

/-- Python list indexing `l[i]` with negative-index wrap-around;
`none` models an `IndexError`. -/
def pyGet (l : List α) (i : Int) : Option α :=
  let j : Int := if i < 0 then i + l.length else i
  if 0 ≤ j then l[j.toNat]? else none

/-- The index sequence of `for i in range(0, len(words), chunk_size)` paired
with the slices `words[i:i+chunk_size]` (for positive `chunk_size`). -/
def chunkWindows (words : List α) (chunk_size : Nat) : List (List α) :=
  (List.range ((words.length + chunk_size - 1) / chunk_size)).map fun i =>
    (words.drop (i * chunk_size)).take chunk_size

/-- `split_into_chunks` from `backend/rag.py` (lines 113-134): for each text,
split into words, group into windows of `chunk_size` words, re-join each
window with single spaces, and keep only chunks that are nonempty after
stripping. -/
def split_into_chunks (texts : List PyStr) (chunk_size : Nat := 200) :
    List PyStr :=
  texts.flatMap fun text =>
    let words := pySplit text
    (chunkWindows words chunk_size).filterMap fun win =>
      let chunk := List.intercalate [' '] win
      if (pyStrip chunk).isEmpty then none else some chunk

/-- The urgency extraction inlined in `generate_answer`
(`backend/services/llm_service.py`, lines 100-107): test the literal
substrings HIGH, MEDIUM, LOW against the upper-cased response text, in that
order. -/
def extract_urgency (response_text : PyStr) : Option PyStr :=
  if "HIGH".data <:+: pyUpper response_text then some "HIGH".data
  else if "MEDIUM".data <:+: pyUpper response_text then some "MEDIUM".data
  else if "LOW".data <:+: pyUpper response_text then some "LOW".data
  else none

/-- Spec-side notion: the text contains the literal token case-insensitively
(some stretch of the text upper-cases to the token). -/
def containsToken (token s : PyStr) : Prop :=
  ∃ u, u <:+: s ∧ pyUpper u = token

/-- A FAISS flat L2 index: a dimension and the stored vectors in insertion
order (vector `i` has label `i`). -/
structure FaissIndex where
  d : Nat
  vectors : List (List ℚ)
deriving DecidableEq

/-- `faiss.IndexFlatL2(d)`: a fresh empty index. -/
def IndexFlatL2 (d : Nat) : FaissIndex := ⟨d, []⟩

/-- `index.add(embeddings)`. -/
def FaissIndex.add (ix : FaissIndex) (embs : List (List ℚ)) : FaissIndex :=
  ⟨ix.d, ix.vectors ++ embs⟩

/-- `index.ntotal`. -/
def FaissIndex.ntotal (ix : FaissIndex) : Nat := ix.vectors.length

/-- Squared euclidean distance between two vectors. -/
def l2Sq (q v : List ℚ) : ℚ :=
  ((q.zip v).map fun p => (p.1 - p.2) * (p.1 - p.2)).sum

/-- `index.search(q, k)` (labels row): the `k` stored labels with smallest
squared L2 distance to `q`, ascending, ties broken by lower label; when `k`
exceeds `ntotal` the row is padded with `-1`, as FAISS does. -/
def FaissIndex.search (ix : FaissIndex) (q : List ℚ) (k : Nat) : List Int :=
  let scored := (List.range ix.ntotal).map fun i =>
    (i, l2Sq q (ix.vectors.getD i []))
  let sorted := List.insertionSort
    (fun a b => a.2 < b.2 ∨ (a.2 = b.2 ∧ a.1 ≤ b.1)) scored
  (sorted.take k).map (fun p => (p.1 : Int)) ++
    List.replicate (k - ix.ntotal) (-1)

/-- The sentence-transformers embedder, opaque: one text to one rational
vector; `Except.error` models a raised exception. -/
structure Embedder where
  encode1 : PyStr → Except Unit (List ℚ)

/-- `embedder.encode(texts)`: batch encoding, one vector per text, failing if
any single encoding raises. -/
def Embedder.encode (e : Embedder) : List PyStr → Except Unit (List (List ℚ))
  | [] => Except.ok []
  | t :: ts =>
    match e.encode1 t, e.encode ts with
    | Except.ok v, Except.ok vs => Except.ok (v :: vs)
    | Except.error err, _ => Except.error err
    | _, Except.error err => Except.error err

/-- The module-level globals of `backend/rag.py`: `embedder`, `faiss_index`,
`guideline_chunks`. -/
structure RagState where
  embedder : Option Embedder
  faiss_index : Option FaissIndex
  guideline_chunks : List PyStr

/-- The retrieval loop of `retrieve_context` (lines 166-169): for each label,
if it is less than the chunk count, look the chunk up by Python indexing;
an out-of-range lookup is an `IndexError`. -/
def gatherChunks (chunks : List PyStr) : List Int → Except Unit (List PyStr)
  | [] => Except.ok []
  | idx :: rest =>
    if idx < (chunks.length : Int) then
      match pyGet chunks idx with
      | some c =>
        match gatherChunks chunks rest with
        | Except.ok r => Except.ok (c :: r)
        | Except.error err => Except.error err
      | none => Except.error ()
    else gatherChunks chunks rest

/-- The body of the `try` block of `retrieve_context` (lines 157-174): encode
the query as a one-element batch, search with `min(k, len(guideline_chunks))`,
gather the chunks for the returned labels, join with a blank line. -/
def retrieveBody (emb : Embedder) (ix : FaissIndex) (chunks : List PyStr)
    (query : PyStr) (k : Nat) : Except Unit PyStr :=
  match emb.encode [query] with
  | Except.error err => Except.error err
  | Except.ok qbatch =>
    match gatherChunks chunks
        (ix.search (qbatch.getD 0 []) (min k chunks.length)) with
    | Except.error err => Except.error err
    | Except.ok retrieved => Except.ok (List.intercalate "\n\n".data retrieved)

/-- `retrieve_context` from `backend/rag.py` (lines 137-178). -/
def retrieve_context (st : RagState) (query : PyStr) (k : Nat := 3) : PyStr :=
  match st.embedder, st.faiss_index with
  | some emb, some ix =>
    if st.guideline_chunks.length = 0 then
      "No clinical guidelines available.".data
    else
      match retrieveBody emb ix st.guideline_chunks query k with
      | Except.ok s => s
      | Except.error _ => "Error retrieving clinical guidelines.".data
  | _, _ => "No clinical guidelines available.".data

/-- One PDF file as the loader sees it: `none` models `PdfReader` raising for
this file (the inner `except` skips it), otherwise the per-page extracted
texts. -/
structure PdfFile where
  pages : Option (List PyStr)
deriving DecidableEq

/-- The environment `load_guidelines` runs against: whether the
sentence-transformer model loads (and to what), whether the guidelines folder
exists, the globbed PDF files, and whether PyPDF2 imported. -/
structure Env where
  sentence_transformer : Option Embedder
  guidelines_exists : Bool
  pdf_files : List PdfFile
  pypdf2_available : Bool

/-- Lines 66-81 of `load_guidelines`: per file, skip when PyPDF2 is missing
or reading raises, else keep each page text that is nonempty after
stripping. -/
def extractTexts (env : Env) : List PyStr :=
  env.pdf_files.flatMap fun f =>
    if !env.pypdf2_available then []
    else
      match f.pages with
      | none => []
      | some pages => pages.filter fun t => !(pyStrip t).isEmpty

/-- The sentinel chunk installed by the two fallback branches. -/
def sentinelChunk : PyStr :=
  "No clinical guidelines available. Please add PDF files to the guidelines folder.".data

/-- `load_guidelines` (lines 28-110) as the sequence of global-state values
after each assignment to a module-level global, together with the returned
boolean.  An empty/short list means an exception ended the `try` block early
(the `except` returns `False` leaving the globals as last assigned). -/
def load_run (env : Env) (st : RagState) : List RagState × Bool :=
  match env.sentence_transformer with
  | none => ([], false)
  | some emb =>
    if !env.guidelines_exists then
      match emb.encode ["No guidelines available".data] with
      | Except.error _ => ([{ st with embedder := some emb }], false)
      | Except.ok vs =>
        ([{ st with embedder := some emb },
          { st with
            embedder := some emb,
            faiss_index := some (IndexFlatL2 (vs.getD 0 []).length) },
          { st with
            embedder := some emb,
            faiss_index := some (IndexFlatL2 (vs.getD 0 []).length),
            guideline_chunks := [sentinelChunk] }], false)
    else if env.pdf_files.isEmpty then
      match emb.encode ["No guidelines available".data] with
      | Except.error _ => ([{ st with embedder := some emb }], false)
      | Except.ok vs =>
        ([{ st with embedder := some emb },
          { st with
            embedder := some emb,
            faiss_index := some (IndexFlatL2 (vs.getD 0 []).length) },
          { st with
            embedder := some emb,
            faiss_index := some (IndexFlatL2 (vs.getD 0 []).length),
            guideline_chunks := [sentinelChunk] }], false)
    else if (split_into_chunks (extractTexts env) 200).isEmpty then
      match emb.encode ["No guidelines available".data] with
      | Except.error _ =>
        ([{ st with embedder := some emb },
          { st with
            embedder := some emb,
            guideline_chunks := split_into_chunks (extractTexts env) 200 }],
          false)
      | Except.ok vs =>
        ([{ st with embedder := some emb },
          { st with
            embedder := some emb,
            guideline_chunks := split_into_chunks (extractTexts env) 200 },
          { st with
            embedder := some emb,
            guideline_chunks := split_into_chunks (extractTexts env) 200,
            faiss_index := some (IndexFlatL2 (vs.getD 0 []).length) },
          { st with
            embedder := some emb,
            faiss_index := some (IndexFlatL2 (vs.getD 0 []).length),
            guideline_chunks :=
              ["No valid text extracted from guidelines.".data] }], false)
    else
      match emb.encode (split_into_chunks (extractTexts env) 200) with
      | Except.error _ =>
        ([{ st with embedder := some emb },
          { st with
            embedder := some emb,
            guideline_chunks := split_into_chunks (extractTexts env) 200 }],
          false)
      | Except.ok embeddings =>
        ([{ st with embedder := some emb },
          { st with
            embedder := some emb,
            guideline_chunks := split_into_chunks (extractTexts env) 200 },
          { st with
            embedder := some emb,
            guideline_chunks := split_into_chunks (extractTexts env) 200,
            faiss_index :=
              some (IndexFlatL2 (embeddings.getD 0 []).length) },
          { st with
            embedder := some emb,
            guideline_chunks := split_into_chunks (extractTexts env) 200,
            faiss_index :=
              some ((IndexFlatL2
                (embeddings.getD 0 []).length).add embeddings) }], true)

/-- `load_guidelines`: the final global state and the returned boolean. -/
def load_guidelines (env : Env) (st : RagState) : RagState × Bool :=
  ((load_run env st).1.getLastD st, (load_run env st).2)

/-! Lemmas about the chunker. -/

theorem mem_splitOnP_not (p : α → Bool) (s : List α) :
    ∀ w ∈ List.splitOnP p s, ∀ c ∈ w, p c = false := by
  induction s with
  | nil =>
    intro w hw c hc
    simp only [List.splitOnP_nil, List.mem_singleton] at hw
    subst hw; simp at hc
  | cons x xs ih =>
    intro w hw c hc
    rw [List.splitOnP_cons] at hw
    by_cases hx : p x
    · rw [if_pos hx] at hw
      rcases List.mem_cons.mp hw with h | h
      · subst h; simp at hc
      · exact ih w h c hc
    · rw [if_neg hx] at hw
      obtain ⟨hd, tl, hht⟩ : ∃ hd tl, List.splitOnP p xs = hd :: tl := by
        cases hsp : List.splitOnP p xs with
        | nil => exact absurd hsp (List.splitOnP_ne_nil p xs)
        | cons hd tl => exact ⟨hd, tl, rfl⟩
      rw [hht, List.modifyHead_cons] at hw
      rcases List.mem_cons.mp hw with h1 | h1
      · subst h1
        rcases List.mem_cons.mp hc with h2 | h2
        · subst h2; exact Bool.eq_false_iff.mpr hx
        · exact ih hd (by rw [hht]; exact List.mem_cons_self hd tl) c h2
      · exact ih w (by rw [hht]; exact List.mem_cons_of_mem hd h1) c hc

theorem pySplit_clean (s : PyStr) :
    ∀ w ∈ pySplit s, w ≠ [] ∧ ∀ c ∈ w, c.isWhitespace = false := by
  intro w hw
  rw [pySplit, List.mem_filter] at hw
  refine ⟨?_, fun c hc => mem_splitOnP_not _ s w hw.1 c hc⟩
  have := hw.2
  simpa [List.isEmpty_eq_false] using this

theorem pySplit_intercalate (ws : List PyStr)
    (hws : ∀ w ∈ ws, w ≠ [] ∧ ∀ c ∈ w, c.isWhitespace = false) (hne : ws ≠ []) :
    pySplit (List.intercalate [' '] ws) = ws := by
  induction ws with
  | nil => exact absurd rfl hne
  | cons w t ih =>
    cases t with
    | nil =>
      have h1 : List.intercalate [' '] [w] = w := by simp [List.intercalate]
      rw [h1, pySplit, List.splitOnP_eq_single]
      · have hw := hws w (List.mem_cons_self w [])
        simp [List.filter, List.isEmpty_eq_false.mpr hw.1]
      · intro c hc
        simp [(hws w (List.mem_cons_self w [])).2 c hc]
    | cons w' t' =>
      have h1 : List.intercalate [' '] (w :: w' :: t')
          = w ++ ' ' :: List.intercalate [' '] (w' :: t') := by
        simp [List.intercalate]
      have hwclean := hws w (List.mem_cons_self w (w' :: t'))
      rw [h1, pySplit, List.splitOnP_first _ _
        (fun c hc => by simp [hwclean.2 c hc]) ' ' (by decide) _]
      rw [List.filter_cons]
      rw [if_pos (by simpa [List.isEmpty_eq_false] using hwclean.1)]
      have ihh := ih (fun x hx => hws x (List.mem_cons_of_mem w hx))
        (by simp)
      rw [pySplit] at ihh
      rw [ihh]

theorem chunkWindows_nil (w : Nat) : chunkWindows ([] : List α) w = [] := by
  cases w with
  | zero => simp [chunkWindows]
  | succ n =>
    have h : n / (n + 1) = 0 := Nat.div_eq_of_lt (by omega)
    simp [chunkWindows, h]

theorem chunkWindows_cons (x : α) (xs : List α) (w : Nat) (hw : 0 < w) :
    chunkWindows (x :: xs) w
      = (x :: xs).take w :: chunkWindows ((x :: xs).drop w) w := by
  have hc : ((x :: xs).length + w - 1) / w
      = (((x :: xs).drop w).length + w - 1) / w + 1 := by
    rw [List.length_drop]
    have hn : 0 < (x :: xs).length := by simp
    set n := (x :: xs).length with hdefn
    rcases le_or_lt n w with h | h
    · have h1 : n - w = 0 := by omega
      have h2 : n + w - 1 = (n - 1) + w := by omega
      rw [h1, h2, Nat.add_div_right _ hw]
      have h3 : (n - 1) / w = 0 := Nat.div_eq_of_lt (by omega)
      have h4 : 0 + w - 1 = w - 1 := by omega
      have h5 : (w - 1) / w = 0 := Nat.div_eq_of_lt (by omega)
      rw [h3, h4, h5]
    · have h2 : n + w - 1 = ((n - w) + w - 1) + w := by omega
      rw [h2, Nat.add_div_right _ hw]
  rw [chunkWindows, chunkWindows, hc, List.range_succ_eq_map, List.map_cons,
    List.map_map]
  congr 1
  · simp
  · apply List.map_congr_left
    intro i _
    simp only [Function.comp_apply]
    rw [List.drop_drop]
    congr 2
    rw [Nat.succ_mul, Nat.add_comm]

theorem chunkWindows_flatten_aux (w : Nat) (hw : 0 < w) :
    ∀ (n : Nat) (xs : List α), xs.length ≤ n →
      (chunkWindows xs w).flatten = xs := by
  intro n
  induction n with
  | zero =>
    intro xs h
    have hx : xs = [] := List.eq_nil_of_length_eq_zero (by omega)
    subst hx; rw [chunkWindows_nil]; rfl
  | succ n ih =>
    intro xs h
    cases xs with
    | nil => rw [chunkWindows_nil]; rfl
    | cons x t =>
      rw [chunkWindows_cons x t w hw, List.flatten_cons, ih _ ?_,
        List.take_append_drop]
      simp only [List.length_drop, List.length_cons]
      simp only [List.length_cons] at h
      omega

theorem chunkWindows_flatten (xs : List α) (w : Nat) (hw : 0 < w) :
    (chunkWindows xs w).flatten = xs :=
  chunkWindows_flatten_aux w hw xs.length xs le_rfl

theorem mem_chunkWindows (xs : List α) (w : Nat) (hw : 0 < w) (win : List α)
    (hwin : win ∈ chunkWindows xs w) :
    win ≠ [] ∧ win.length ≤ w ∧ ∀ a ∈ win, a ∈ xs := by
  rw [chunkWindows, List.mem_map] at hwin
  obtain ⟨i, hi, rfl⟩ := hwin
  rw [List.mem_range] at hi
  have hlt : i * w < xs.length := by
    have h1 : i + 1 ≤ (xs.length + w - 1) / w := hi
    have h2 : (i + 1) * w ≤ xs.length + w - 1 := (Nat.le_div_iff_mul_le hw).mp h1
    have h3 : (i + 1) * w = i * w + w := by rw [Nat.succ_mul]
    omega
  refine ⟨?_, ?_, ?_⟩
  · cases hd' : xs.drop (i * w) with
    | nil =>
      exfalso
      have hlen := List.length_drop (i * w) xs
      rw [hd'] at hlen
      simp only [List.length_nil] at hlen
      omega
    | cons a t =>
      cases w with
      | zero => omega
      | succ w' => simp
  · rw [List.length_take]
    exact min_le_left _ _
  · intro a ha
    exact List.mem_of_mem_drop (List.mem_of_mem_take ha)

theorem pyStrip_isEmpty_false (s : PyStr) (c : Char) (hc : c ∈ s)
    (hw : c.isWhitespace = false) : (pyStrip s).isEmpty = false := by
  rw [List.isEmpty_eq_false, pyStrip]
  intro h
  rw [List.reverse_eq_nil_iff, List.dropWhile_eq_nil_iff] at h
  have h1 : s.dropWhile (fun c => c.isWhitespace) ≠ [] := by
    rw [Ne, List.dropWhile_eq_nil_iff]
    intro hall
    have := hall c hc
    rw [hw] at this
    cases this
  have h2 := List.head_dropWhile_not (fun c => c.isWhitespace) s h1
  have h3 : (s.dropWhile fun c => c.isWhitespace).head h1
      ∈ (s.dropWhile fun c => c.isWhitespace) := List.head_mem h1
  have h4 := h _ (List.mem_reverse.mpr h3)
  rw [h2] at h4
  cases h4

theorem head_mem_intercalate (w : PyStr) (t : List PyStr) (c : Char)
    (hc : c ∈ w) : c ∈ List.intercalate [' '] (w :: t) := by
  cases t with
  | nil =>
    have h1 : List.intercalate [' '] [w] = w := by simp [List.intercalate]
    rw [h1]; exact hc
  | cons w' t' =>
    have h1 : List.intercalate [' '] (w :: w' :: t')
        = w ++ ' ' :: List.intercalate [' '] (w' :: t') := by
      simp [List.intercalate]
    rw [h1]
    exact List.mem_append_left _ hc

theorem split_into_chunks_eq_map (texts : List PyStr) (w : Nat) (hw : 0 < w) :
    split_into_chunks texts w = texts.flatMap fun text =>
      (chunkWindows (pySplit text) w).map (List.intercalate [' ']) := by
  unfold split_into_chunks
  induction texts with
  | nil => rfl
  | cons text rest ih =>
    rw [List.flatMap_cons, List.flatMap_cons, ih]
    congr 1
    calc (chunkWindows (pySplit text) w).filterMap (fun win =>
            let chunk := List.intercalate [' '] win
            if (pyStrip chunk).isEmpty then none else some chunk)
        = (chunkWindows (pySplit text) w).filterMap
            (some ∘ List.intercalate [' ']) := by
          apply List.filterMap_congr
          intro win hwin
          obtain ⟨hne, -, hsub⟩ := mem_chunkWindows _ w hw win hwin
          obtain ⟨w0, t0, rfl⟩ : ∃ w0 t0, win = w0 :: t0 := by
            cases win with
            | nil => exact absurd rfl hne
            | cons w0 t0 => exact ⟨w0, t0, rfl⟩
          obtain ⟨hw0ne, hw0clean⟩ :=
            pySplit_clean text w0 (hsub w0 (List.mem_cons_self w0 t0))
          obtain ⟨c, hc⟩ := List.exists_mem_of_ne_nil w0 hw0ne
          have hmem := head_mem_intercalate w0 t0 c hc
          have hstrip := pyStrip_isEmpty_false _ c hmem (hw0clean c hc)
          simp only [hstrip]
          rfl
      _ = (chunkWindows (pySplit text) w).map (List.intercalate [' ']) :=
          congrFun (List.filterMap_eq_map _) _

/-- Claim C1: for a single text of `n > 0` words and window `w > 0`,
`split_into_chunks` yields exactly `⌈n / w⌉ = (n + w - 1) / w` chunks, and
concatenating the word sequences of all chunks in order reproduces the word
sequence of the text. -/
theorem split_into_chunks_count_and_concat (text : PyStr) (w : Nat)
    (hw : 0 < w) (hn : 0 < (pySplit text).length) :
    (split_into_chunks [text] w).length = ((pySplit text).length + w - 1) / w
    ∧ (split_into_chunks [text] w).flatMap pySplit = pySplit text := by
  rw [split_into_chunks_eq_map [text] w hw]
  rw [List.flatMap_cons, List.flatMap_nil, List.append_nil]
  constructor
  · rw [List.length_map, chunkWindows, List.length_map, List.length_range]
  · rw [List.flatMap_def, List.map_map]
    have hcongr : ∀ win ∈ chunkWindows (pySplit text) w,
        (pySplit ∘ List.intercalate [' ']) win = id win := by
      intro win hwin
      obtain ⟨hne, -, hsub⟩ := mem_chunkWindows _ w hw win hwin
      exact pySplit_intercalate win (fun x hx => pySplit_clean text x (hsub x hx)) hne
    rw [List.map_congr_left hcongr, List.map_id]
    exact chunkWindows_flatten _ w hw

/-- Witness for C1 at the concrete text "fever headache cough fatigue" and
window 2. -/
theorem split_into_chunks_count_and_concat_witness :
    0 < 2 ∧ 0 < (pySplit "fever headache cough fatigue".data).length ∧
    ((split_into_chunks ["fever headache cough fatigue".data] 2).length
        = ((pySplit "fever headache cough fatigue".data).length + 2 - 1) / 2
      ∧ (split_into_chunks ["fever headache cough fatigue".data] 2).flatMap
          pySplit = pySplit "fever headache cough fatigue".data) :=
  ⟨by decide, by decide,
    split_into_chunks_count_and_concat _ 2 (by decide) (by decide)⟩

/-- Claim C9: every chunk produced by `split_into_chunks` with window `w > 0`
is a fixed point: chunking that chunk alone with the same window yields
exactly that chunk. -/
theorem split_into_chunks_idempotent (texts : List PyStr) (w : Nat)
    (hw : 0 < w) (c : PyStr) (hc : c ∈ split_into_chunks texts w) :
    split_into_chunks [c] w = [c] := by
  rw [split_into_chunks_eq_map texts w hw, List.mem_flatMap] at hc
  obtain ⟨text, -, hc⟩ := hc
  rw [List.mem_map] at hc
  obtain ⟨win, hwin, rfl⟩ := hc
  obtain ⟨hne, hlen, hsub⟩ := mem_chunkWindows _ w hw win hwin
  have hsplit : pySplit (List.intercalate [' '] win) = win :=
    pySplit_intercalate win (fun x hx => pySplit_clean text x (hsub x hx)) hne
  rw [split_into_chunks_eq_map _ w hw, List.flatMap_cons, List.flatMap_nil,
    List.append_nil, hsplit]
  have hone : chunkWindows win w = [win] := by
    cases hwin' : win with
    | nil => exact absurd hwin' hne
    | cons a t =>
      rw [chunkWindows_cons a t w hw]
      rw [List.take_of_length_le (by rw [← hwin']; exact hlen)]
      rw [List.drop_eq_nil_of_le (by rw [← hwin']; exact hlen)]
      rw [chunkWindows_nil]
  rw [hone, List.map_cons, List.map_nil]

/-- Witness for C9: the first chunk of "a b c" with window 2 re-chunks to
itself. -/
theorem split_into_chunks_idempotent_witness :
    0 < 2 ∧ "a b".data ∈ split_into_chunks ["a b c".data] 2 ∧
    split_into_chunks ["a b".data] 2 = ["a b".data] :=
  ⟨by decide, by decide,
    split_into_chunks_idempotent ["a b c".data] 2 (by decide) _ (by decide)⟩

/-! Lemmas about urgency extraction. -/

theorem infix_map_iff (f : α → β) (l : List α) (t : List β) :
    t <:+: l.map f ↔ ∃ u, u <:+: l ∧ u.map f = t := by
  constructor
  · rintro ⟨s₁, s₂, h⟩
    rw [List.append_assoc] at h
    obtain ⟨l₁, l₂, rfl, -, h₂⟩ := List.map_eq_append_iff.mp h.symm
    obtain ⟨u, l₃, rfl, hu, -⟩ := List.map_eq_append_iff.mp h₂
    exact ⟨u, ⟨l₁, l₃, by simp⟩, hu⟩
  · rintro ⟨u, hu, rfl⟩
    exact hu.map f

theorem containsToken_iff (token s : PyStr) :
    containsToken token s ↔ token <:+: pyUpper s := by
  rw [containsToken, pyUpper, infix_map_iff]
  constructor
  · rintro ⟨u, hu, hmap⟩; exact ⟨u, hu, hmap⟩
  · rintro ⟨u, hu, hmap⟩; exact ⟨u, hu, hmap⟩

/-- Claim C5: the extracted referral urgency is exactly the result of the
case-insensitive priority scan HIGH, then MEDIUM, then LOW, else none. -/
theorem extract_urgency_priority_scan (s : PyStr) :
    (extract_urgency s = some "HIGH".data ↔ containsToken "HIGH".data s)
    ∧ (extract_urgency s = some "MEDIUM".data
        ↔ ¬containsToken "HIGH".data s ∧ containsToken "MEDIUM".data s)
    ∧ (extract_urgency s = some "LOW".data
        ↔ ¬containsToken "HIGH".data s ∧ ¬containsToken "MEDIUM".data s
          ∧ containsToken "LOW".data s)
    ∧ (extract_urgency s = none
        ↔ ¬containsToken "HIGH".data s ∧ ¬containsToken "MEDIUM".data s
          ∧ ¬containsToken "LOW".data s) := by
  have d1 : some "HIGH".data ≠ some "MEDIUM".data := by decide
  have d2 : some "HIGH".data ≠ some "LOW".data := by decide
  have d3 : some "MEDIUM".data ≠ some "LOW".data := by decide
  rw [containsToken_iff, containsToken_iff, containsToken_iff]
  unfold extract_urgency
  by_cases h1 : "HIGH".data <:+: pyUpper s <;>
    by_cases h2 : "MEDIUM".data <:+: pyUpper s <;>
      by_cases h3 : "LOW".data <:+: pyUpper s <;>
        simp [h1, h2, h3, d1, d2, d3, d1.symm, d2.symm, d3.symm]

/-! Lemmas about the FAISS model and the retrieval path. -/

theorem search_length (ix : FaissIndex) (q : List ℚ) (k : Nat) :
    (ix.search q k).length = k := by
  unfold FaissIndex.search
  simp only [List.length_append, List.length_map, List.length_take,
    List.length_insertionSort, List.length_range, List.length_replicate]
  omega

theorem mem_search (ix : FaissIndex) (q : List ℚ) (k : Nat)
    (hk : k ≤ ix.ntotal) :
    ∀ idx ∈ ix.search q k, ∃ i : Nat, idx = (i : Int) ∧ i < ix.ntotal := by
  intro idx hidx
  unfold FaissIndex.search at hidx
  rw [show k - ix.ntotal = 0 from by omega, List.replicate_zero,
    List.append_nil, List.mem_map] at hidx
  obtain ⟨p, hp, rfl⟩ := hidx
  have hp2 : p ∈ (List.range ix.ntotal).map fun i =>
      (i, l2Sq q (ix.vectors.getD i [])) :=
    (List.mem_insertionSort _).mp (List.mem_of_mem_take hp)
  rw [List.mem_map] at hp2
  obtain ⟨i, hi, rfl⟩ := hp2
  exact ⟨i, rfl, List.mem_range.mp hi⟩

theorem search_perm_all (ix : FaissIndex) (q : List ℚ) :
    (ix.search q ix.ntotal).Perm ((List.range ix.ntotal).map Int.ofNat) := by
  unfold FaissIndex.search
  rw [Nat.sub_self, List.replicate_zero, List.append_nil]
  rw [List.take_of_length_le (by
    rw [List.length_insertionSort, List.length_map, List.length_range])]
  have hperm := (List.perm_insertionSort
    (fun a b => a.2 < b.2 ∨ (a.2 = b.2 ∧ a.1 ≤ b.1))
    ((List.range ix.ntotal).map fun i =>
      (i, l2Sq q (ix.vectors.getD i [])))).map fun p => ((p.1 : Int))
  rw [List.map_map] at hperm
  exact hperm

theorem pyGet_nat (l : List α) (d : α) (i : Nat) (hi : i < l.length) :
    pyGet l (i : Int) = some (l.getD i d) := by
  simp only [pyGet]
  have hneg : ¬((i : Int) < 0) := by omega
  rw [if_neg hneg, if_pos (show (0 : Int) ≤ (i : Int) by omega),
    Int.toNat_natCast, List.getD_eq_getElem?_getD,
    List.getElem?_eq_getElem hi]
  rfl

theorem pyGet_mem (l : List α) (i : Int) (c : α) (h : pyGet l i = some c) :
    c ∈ l := by
  simp only [pyGet] at h
  by_cases h0 : (0 : Int) ≤ if i < 0 then i + l.length else i
  · rw [if_pos h0] at h
    obtain ⟨hlt, rfl⟩ := List.getElem?_eq_some_iff.mp h
    exact List.getElem_mem hlt
  · rw [if_neg h0] at h
    cases h

theorem gatherChunks_ok (chunks : List PyStr) (idxs : List Int)
    (h : ∀ idx ∈ idxs, ∃ i : Nat, idx = (i : Int) ∧ i < chunks.length) :
    gatherChunks chunks idxs
      = Except.ok (idxs.map fun idx => chunks.getD idx.toNat []) := by
  induction idxs with
  | nil => rfl
  | cons idx rest ih =>
    obtain ⟨i, rfl, hi⟩ := h idx (List.mem_cons_self _ _)
    rw [gatherChunks, if_pos (by exact_mod_cast hi),
      pyGet_nat chunks [] i hi,
      ih fun idx hidx => h idx (List.mem_cons_of_mem _ hidx)]
    rw [List.map_cons, Int.toNat_natCast]

theorem gatherChunks_mem (chunks : List PyStr) (idxs : List Int)
    (l : List PyStr) (h : gatherChunks chunks idxs = Except.ok l) :
    ∀ x ∈ l, x ∈ chunks := by
  induction idxs generalizing l with
  | nil =>
    rw [gatherChunks] at h
    cases h
    intro x hx
    cases hx
  | cons idx rest ih =>
    rw [gatherChunks] at h
    by_cases hlt : idx < (chunks.length : Int)
    · rw [if_pos hlt] at h
      cases hg : pyGet chunks idx with
      | none => rw [hg] at h; cases h
      | some c =>
        rw [hg] at h
        cases hr : gatherChunks chunks rest with
        | error e => rw [hr] at h; cases h
        | ok r =>
          rw [hr] at h
          cases h
          intro x hx
          rcases List.mem_cons.mp hx with h1 | h1
          · subst h1; exact pyGet_mem chunks idx x hg
          · exact ih r hr x h1
    · rw [if_neg hlt] at h
      exact ih l h

theorem encode_singleton (e : Embedder) (q : PyStr) (v : List ℚ)
    (he : e.encode1 q = Except.ok v) : e.encode [q] = Except.ok [v] := by
  rw [Embedder.encode, he, Embedder.encode]

theorem encode_ok_length (e : Embedder) (ts : List PyStr)
    (vs : List (List ℚ)) (h : e.encode ts = Except.ok vs) :
    vs.length = ts.length := by
  induction ts generalizing vs with
  | nil =>
    rw [Embedder.encode] at h
    cases h
    rfl
  | cons t rest ih =>
    rw [Embedder.encode] at h
    cases h1 : e.encode1 t with
    | error e1 =>
      rw [h1] at h
      cases h2 : e.encode rest <;> rw [h2] at h <;> cases h
    | ok v =>
      rw [h1] at h
      cases h2 : e.encode rest with
      | error e2 => rw [h2] at h; cases h
      | ok vs' =>
        rw [h2] at h
        cases h
        simp [ih vs' h2]

theorem retrieveBody_ok (emb : Embedder) (ix : FaissIndex)
    (chunks : List PyStr) (q : PyStr) (v : List ℚ) (k : Nat)
    (he : emb.encode1 q = Except.ok v) (hal : ix.ntotal = chunks.length) :
    retrieveBody emb ix chunks q k
      = Except.ok (List.intercalate "\n\n".data
          ((ix.search v (min k chunks.length)).map fun idx =>
            chunks.getD idx.toNat [])) := by
  have hvalid : ∀ idx ∈ ix.search v (min k chunks.length),
      ∃ i : Nat, idx = (i : Int) ∧ i < chunks.length := by
    intro idx hidx
    obtain ⟨i, h1, h2⟩ :=
      mem_search ix v (min k chunks.length) (by omega) idx hidx
    exact ⟨i, h1, hal ▸ h2⟩
  rw [retrieveBody, encode_singleton emb q v he]
  show (match gatherChunks chunks (ix.search v (min k chunks.length)) with
      | Except.error err => Except.error err
      | Except.ok retrieved =>
          Except.ok (List.intercalate "\n\n".data retrieved))
    = _
  rw [gatherChunks_ok chunks _ hvalid]

/-- Helper shared by the loaded-state retrieval theorems: in a state whose
index is aligned with a nonempty chunk table and whose query encodes,
`retrieve_context` is the blank-line join of the chunks named by the clamped
search. -/
theorem retrieve_loaded_eq (emb : Embedder) (ix : FaissIndex)
    (chunks : List PyStr) (q : PyStr) (v : List ℚ) (k : Nat)
    (he : emb.encode1 q = Except.ok v) (hal : ix.ntotal = chunks.length)
    (hn : 0 < chunks.length) :
    retrieve_context ⟨some emb, some ix, chunks⟩ q k
      = List.intercalate "\n\n".data
          ((ix.search v (min k chunks.length)).map fun idx =>
            chunks.getD idx.toNat []) := by
  show (if chunks.length = 0 then _ else _) = _
  rw [if_neg (by omega), retrieveBody_ok emb ix chunks q v k he hal]

/-- Claim C2: in a loaded state (embedder and index present, aligned index,
nonempty chunk table) with an encodable query, `retrieve_context` embeds the
query as a single-item batch, searches with `min(k, chunk count)`, maps the
returned labels back to chunk text, and joins the texts with a blank line;
the search row has exactly `min(k, chunk count)` entries. -/
theorem retrieve_context_loaded_spec (emb : Embedder) (ix : FaissIndex)
    (chunks : List PyStr) (q : PyStr) (v : List ℚ) (k : Nat)
    (he : emb.encode1 q = Except.ok v) (hal : ix.ntotal = chunks.length)
    (hn : 0 < chunks.length) (hk : 0 < k) :
    retrieve_context ⟨some emb, some ix, chunks⟩ q k
      = List.intercalate "\n\n".data
          ((ix.search v (min k chunks.length)).map fun idx =>
            chunks.getD idx.toNat [])
    ∧ (ix.search v (min k chunks.length)).length = min k chunks.length :=
  ⟨retrieve_loaded_eq emb ix chunks q v k he hal hn,
    search_length ix v (min k chunks.length)⟩

/-- An embedder returning a constant vector, used by concrete witnesses. -/
def constEmb : Embedder := ⟨fun _ => Except.ok [(0 : ℚ)]⟩

/-- An embedder raising on every input, used by concrete witnesses. -/
def errEmb : Embedder := ⟨fun _ => Except.error ()⟩

/-- Witness for C2: a two-chunk loaded state queried with k = 3. -/
theorem retrieve_context_loaded_spec_witness :
    constEmb.encode1 "q".data = Except.ok [(0 : ℚ)]
    ∧ (FaissIndex.mk 1 [[6], [7]]).ntotal = (["x y".data, "z".data] : List PyStr).length
    ∧ 0 < (["x y".data, "z".data] : List PyStr).length ∧ 0 < 3
    ∧ (retrieve_context ⟨some constEmb,
          some (FaissIndex.mk 1 [[6], [7]]), ["x y".data, "z".data]⟩ "q".data 3
        = List.intercalate "\n\n".data
            (((FaissIndex.mk 1 [[6], [7]]).search [(0 : ℚ)]
                (min 3 (["x y".data, "z".data] : List PyStr).length)).map
              fun idx => (["x y".data, "z".data] : List PyStr).getD idx.toNat [])
      ∧ ((FaissIndex.mk 1 [[6], [7]]).search [(0 : ℚ)]
            (min 3 (["x y".data, "z".data] : List PyStr).length)).length
        = min 3 (["x y".data, "z".data] : List PyStr).length) :=
  ⟨rfl, by decide, by decide, by decide,
    retrieve_context_loaded_spec _ _ _ _ _ 3 rfl (by decide)
      (by decide) (by decide)⟩

/-- Claim C6: whenever the body of the `try` block of `retrieve_context`
raises (embedding, search or lookup), the exception is caught and the fixed
error string is returned instead of propagating. -/
theorem retrieve_context_catches_errors (emb : Embedder) (ix : FaissIndex)
    (chunks : List PyStr) (q : PyStr) (k : Nat) (err : Unit)
    (hn : 0 < chunks.length)
    (herr : retrieveBody emb ix chunks q k = Except.error err) :
    retrieve_context ⟨some emb, some ix, chunks⟩ q k
      = "Error retrieving clinical guidelines.".data := by
  show (if chunks.length = 0 then _ else _) = _
  rw [if_neg (by omega), herr]

/-- Witness for C6: an embedder that raises on every input. -/
theorem retrieve_context_catches_errors_witness :
    0 < (["x".data] : List PyStr).length
    ∧ retrieveBody errEmb (FaissIndex.mk 1 [[6]])
        ["x".data] "q".data 3 = Except.error ()
    ∧ retrieve_context ⟨some errEmb,
        some (FaissIndex.mk 1 [[6]]), ["x".data]⟩ "q".data 3
      = "Error retrieving clinical guidelines.".data :=
  ⟨by decide, rfl,
    retrieve_context_catches_errors _ _ _ _ 3 () (by decide) rfl⟩

theorem map_getD_range (l : List α) (d : α) :
    (List.range l.length).map (fun i => l.getD i d) = l := by
  induction l with
  | nil => rfl
  | cons x t ih =>
    rw [List.length_cons, List.range_succ_eq_map, List.map_cons, List.map_map]
    have hcongr : ∀ i ∈ List.range t.length,
        ((fun i => (x :: t).getD i d) ∘ Nat.succ) i = t.getD i d :=
      fun i _ => rfl
    rw [List.map_congr_left hcongr, ih]
    rfl

/-- Claim C7: when the requested `k` exceeds the number `n` of indexed
vectors, the search the program performs (clamped to `min(k, n)`) returns
exactly `n` labels — all of the indexed vectors — and `retrieve_context`
returns the join of all `n` chunks without error. -/
theorem search_clamped_returns_all (emb : Embedder) (ix : FaissIndex)
    (chunks : List PyStr) (q : PyStr) (v : List ℚ) (k : Nat)
    (he : emb.encode1 q = Except.ok v) (hal : ix.ntotal = chunks.length)
    (hn : 0 < chunks.length) (hk : chunks.length < k) :
    (ix.search v (min k chunks.length)).length = chunks.length
    ∧ (ix.search v (min k chunks.length)).Perm
        ((List.range chunks.length).map Int.ofNat)
    ∧ ∃ l : List PyStr,
        retrieve_context ⟨some emb, some ix, chunks⟩ q k
          = List.intercalate "\n\n".data l ∧ l.Perm chunks := by
  have hmin : min k chunks.length = chunks.length := by omega
  refine ⟨by rw [search_length, hmin], ?_, ?_⟩
  · rw [hmin, ← hal]
    exact search_perm_all ix v
  · refine ⟨(ix.search v (min k chunks.length)).map fun idx =>
      chunks.getD idx.toNat [], retrieve_loaded_eq emb ix chunks q v k he hal hn, ?_⟩
    have hperm : (ix.search v (min k chunks.length)).Perm
        ((List.range chunks.length).map Int.ofNat) := by
      rw [hmin, ← hal]
      exact search_perm_all ix v
    have hmap := hperm.map fun idx => chunks.getD idx.toNat []
    rw [List.map_map] at hmap
    have heq : ((List.range chunks.length).map fun i =>
        chunks.getD (Int.ofNat i).toNat []) = chunks := by
      have hc : ∀ i ∈ List.range chunks.length,
          chunks.getD (Int.ofNat i).toNat [] = chunks.getD i [] :=
        fun i _ => rfl
      rw [List.map_congr_left hc, map_getD_range]
    rw [show ((fun idx => chunks.getD idx.toNat []) ∘ Int.ofNat)
        = fun i => chunks.getD (Int.ofNat i).toNat [] from rfl] at hmap
    rw [heq] at hmap
    exact hmap

/-- Witness for C7: two indexed vectors, k = 5 > 2. -/
theorem search_clamped_returns_all_witness :
    constEmb.encode1 "q".data = Except.ok [(0 : ℚ)]
    ∧ (FaissIndex.mk 1 [[6], [7]]).ntotal
        = (["x y".data, "z".data] : List PyStr).length
    ∧ 0 < (["x y".data, "z".data] : List PyStr).length
    ∧ (["x y".data, "z".data] : List PyStr).length < 5
    ∧ (((FaissIndex.mk 1 [[6], [7]]).search [(0 : ℚ)]
          (min 5 (["x y".data, "z".data] : List PyStr).length)).length
        = (["x y".data, "z".data] : List PyStr).length
      ∧ ((FaissIndex.mk 1 [[6], [7]]).search [(0 : ℚ)]
          (min 5 (["x y".data, "z".data] : List PyStr).length)).Perm
          ((List.range (["x y".data, "z".data] : List PyStr).length).map
            Int.ofNat)
      ∧ ∃ l : List PyStr,
          retrieve_context ⟨some constEmb,
              some (FaissIndex.mk 1 [[6], [7]]),
              ["x y".data, "z".data]⟩ "q".data 5
            = List.intercalate "\n\n".data l
          ∧ l.Perm ["x y".data, "z".data]) :=
  ⟨rfl, by decide, by decide, by decide,
    search_clamped_returns_all _ _ _ _ _ 5 rfl (by decide)
      (by decide) (by decide)⟩

theorem search_empty (d : Nat) (q : List ℚ) (k : Nat) :
    (FaissIndex.mk d []).search q k = List.replicate k (-1) := by
  unfold FaissIndex.search FaissIndex.ntotal
  simp

/-- Helper: in the fallback state (empty index, single chunk), any query
whose embedding succeeds retrieves exactly that single chunk, via the `-1`
placeholder label and Python negative indexing. -/
theorem retrieveBody_single_chunk_empty_index (emb : Embedder) (d k : Nat)
    (c q : PyStr) (v : List ℚ) (he : emb.encode1 q = Except.ok v)
    (hk : 0 < k) :
    retrieveBody emb (FaissIndex.mk d []) [c] q k = Except.ok c := by
  rw [retrieveBody, encode_singleton emb q v he]
  show (match gatherChunks [c]
      ((FaissIndex.mk d []).search v (min k ([c] : List PyStr).length)) with
    | Except.error err => Except.error err
    | Except.ok retrieved =>
        Except.ok (List.intercalate "\n\n".data retrieved)) = Except.ok c
  have hmin : min k ([c] : List PyStr).length = 1 := by
    rw [List.length_singleton]
    exact Nat.min_eq_right hk
  rw [hmin, search_empty]
  have hg : gatherChunks [c] (List.replicate 1 (-1)) = Except.ok [c] := by
    show gatherChunks [c] [-1] = Except.ok [c]
    rw [gatherChunks, if_pos (by norm_num)]
    have hpg : pyGet ([c] : List PyStr) (-1) = some c := by
      simp [pyGet]
    rw [hpg, gatherChunks]
  rw [hg]
  show Except.ok (List.intercalate "\n\n".data [c]) = Except.ok c
  have hj : List.intercalate "\n\n".data [c] = c := by
    simp [List.intercalate]
  rw [hj]

/-- Helper: in the fallback state (empty index, single chunk), any query
whose embedding succeeds retrieves exactly that single chunk, via the `-1`
placeholder label and Python negative indexing. -/
theorem retrieve_single_chunk_empty_index (emb : Embedder) (d k : Nat)
    (c q : PyStr) (v : List ℚ) (he : emb.encode1 q = Except.ok v)
    (hk : 0 < k) :
    retrieve_context ⟨some emb, some (FaissIndex.mk d []), [c]⟩ q k = c := by
  show (if ([c] : List PyStr).length = 0 then
      "No clinical guidelines available.".data
    else match retrieveBody emb (FaissIndex.mk d []) [c] q k with
      | Except.ok s => s
      | Except.error _ => "Error retrieving clinical guidelines.".data) = c
  rw [if_neg (by simp),
    retrieveBody_single_chunk_empty_index emb d k c q v he hk]

/-- Claim C10 (implicit): in the fallback state — one sentinel chunk, empty
index — `retrieve_context` does not take its exception branch: the search
over the empty index yields the placeholder label `-1`, the guard
`idx < len(guideline_chunks)` accepts `-1`, Python negative indexing maps it
to the last (sentinel) chunk, and the sentinel text is returned. -/
theorem fallback_negative_index_returns_sentinel (emb : Embedder) (d k : Nat)
    (c q : PyStr) (v : List ℚ) (he : emb.encode1 q = Except.ok v)
    (hk : 0 < k) :
    (FaissIndex.mk d []).search v (min k ([c] : List PyStr).length) = [-1]
    ∧ ((-1 : Int) < (([c] : List PyStr).length : Int)
        ∧ pyGet ([c] : List PyStr) (-1) = some c)
    ∧ retrieveBody emb (FaissIndex.mk d []) [c] q k = Except.ok c
    ∧ retrieve_context ⟨some emb, some (FaissIndex.mk d []), [c]⟩ q k = c := by
  have hmin : min k ([c] : List PyStr).length = 1 := by
    rw [List.length_singleton]
    exact Nat.min_eq_right hk
  refine ⟨?_, ⟨by norm_num, by simp [pyGet]⟩, ?_, ?_⟩
  · rw [hmin, search_empty]
    rfl
  · exact retrieveBody_single_chunk_empty_index emb d k c q v he hk
  · exact retrieve_single_chunk_empty_index emb d k c q v he hk

/-- Witness for C10 at a concrete sentinel chunk and query. -/
theorem fallback_negative_index_returns_sentinel_witness :
    constEmb.encode1 "anything".data = Except.ok [(0 : ℚ)] ∧ 0 < 3
    ∧ ((FaissIndex.mk 1 []).search [(0 : ℚ)]
          (min 3 (["s".data] : List PyStr).length) = [-1]
      ∧ ((-1 : Int) < ((["s".data] : List PyStr).length : Int)
          ∧ pyGet (["s".data] : List PyStr) (-1) = some "s".data)
      ∧ retrieveBody constEmb (FaissIndex.mk 1 []) ["s".data]
          "anything".data 3 = Except.ok "s".data
      ∧ retrieve_context ⟨some constEmb, some (FaissIndex.mk 1 []),
          ["s".data]⟩ "anything".data 3 = "s".data) :=
  ⟨rfl, by decide,
    fallback_negative_index_returns_sentinel constEmb 1 3 "s".data
      "anything".data [(0 : ℚ)] rfl (by decide)⟩


theorem retrieveBody_ok_inv (emb : Embedder) (ix : FaissIndex)
    (chunks : List PyStr) (q s : PyStr) (k : Nat)
    (hb : retrieveBody emb ix chunks q k = Except.ok s) :
    ∃ l : List PyStr, (∀ x ∈ l, x ∈ chunks)
      ∧ s = List.intercalate "\n\n".data l := by
  rw [retrieveBody] at hb
  split at hb
  · cases hb
  · split at hb
    · cases hb
    · cases hb
      rename_i qbatch heq retrieved hg
      exact ⟨retrieved, gatherChunks_mem chunks _ retrieved hg, rfl⟩

theorem retrieve_context_cases (emb : Embedder) (ix : FaissIndex)
    (chunks : List PyStr) (q : PyStr) (k : Nat) (hn : 0 < chunks.length) :
    (∃ l : List PyStr, (∀ x ∈ l, x ∈ chunks)
      ∧ retrieve_context ⟨some emb, some ix, chunks⟩ q k
        = List.intercalate "\n\n".data l)
    ∨ retrieve_context ⟨some emb, some ix, chunks⟩ q k
        = "Error retrieving clinical guidelines.".data := by
  have hred : retrieve_context ⟨some emb, some ix, chunks⟩ q k
      = match retrieveBody emb ix chunks q k with
        | Except.ok s => s
        | Except.error _ => "Error retrieving clinical guidelines.".data := by
    show (if chunks.length = 0 then "No clinical guidelines available.".data
      else match retrieveBody emb ix chunks q k with
        | Except.ok s => s
        | Except.error _ => "Error retrieving clinical guidelines.".data) = _
    rw [if_neg (by omega)]
  cases hb : retrieveBody emb ix chunks q k with
  | error e => right; rw [hred, hb]
  | ok s =>
    left
    obtain ⟨l, hsub, hs⟩ := retrieveBody_ok_inv emb ix chunks q s k hb
    exact ⟨l, hsub, by rw [hred, hb, hs]⟩

/-! Lemmas about `load_guidelines`. -/

theorem load_run_true_inv (env : Env) (st : RagState) (l : List RagState)
    (h : load_run env st = (l, true)) :
    ∃ emb embeddings,
      env.sentence_transformer = some emb
      ∧ (split_into_chunks (extractTexts env) 200).isEmpty = false
      ∧ emb.encode (split_into_chunks (extractTexts env) 200)
          = Except.ok embeddings
      ∧ l = [{ st with embedder := some emb },
          { st with
            embedder := some emb,
            guideline_chunks := split_into_chunks (extractTexts env) 200 },
          { st with
            embedder := some emb,
            guideline_chunks := split_into_chunks (extractTexts env) 200,
            faiss_index :=
              some (IndexFlatL2 (embeddings.getD 0 []).length) },
          { st with
            embedder := some emb,
            guideline_chunks := split_into_chunks (extractTexts env) 200,
            faiss_index :=
              some ((IndexFlatL2
                (embeddings.getD 0 []).length).add embeddings) }] := by
  rw [load_run] at h
  split at h
  · simp at h
  · rename_i emb hemb
    split at h
    · split at h <;> simp at h
    · split at h
      · split at h <;> simp at h
      · split at h
        · split at h <;> simp at h
        · rename_i hch
          split at h
          · simp at h
          · rename_i embeddings henc
            injection h with h1 h2
            exact ⟨emb, embeddings, hemb,
              Bool.not_eq_true _ ▸ Bool.of_not_eq_true hch, henc, h1.symm⟩

theorem load_guidelines_true_state (env : Env) (st : RagState)
    (h : (load_guidelines env st).2 = true) :
    ∃ emb embeddings,
      env.sentence_transformer = some emb
      ∧ split_into_chunks (extractTexts env) 200 ≠ []
      ∧ emb.encode (split_into_chunks (extractTexts env) 200)
          = Except.ok embeddings
      ∧ (load_guidelines env st).1 =
          { st with
            embedder := some emb,
            faiss_index := some ⟨(embeddings.getD 0 []).length, embeddings⟩,
            guideline_chunks := split_into_chunks (extractTexts env) 200 } := by
  have h2 : (load_run env st).2 = true := h
  have h3 : load_run env st = ((load_run env st).1, true) := by
    rw [← h2]
  obtain ⟨emb, embeddings, hemb, hch, henc, hl⟩ :=
    load_run_true_inv env st _ h3
  refine ⟨emb, embeddings, hemb, List.isEmpty_eq_false.mp hch, henc, ?_⟩
  show (load_run env st).1.getLastD st = _
  rw [hl]
  rfl

/-- An embedder mapping a text to the one-entry vector of its length, so
that different corpora get different index contents. -/
def lenEmb : Embedder := ⟨fun s => Except.ok [(s.length : ℚ)]⟩

/-- The initial global state of `backend/rag.py` (module import time). -/
def emptyState : RagState := ⟨none, none, []⟩

/-- Environment where the guidelines directory does not exist. -/
def noDirEnv : Env := ⟨some constEmb, false, [], true⟩

/-- Environment where the directory exists but holds no PDF files. -/
def noPdfEnv : Env := ⟨some constEmb, true, [], true⟩

/-- Environment with one PDF whose single page reads "alpha beta". -/
def corpusEnvA : Env := ⟨some lenEmb, true, [⟨some ["alpha beta".data]⟩], true⟩

/-- Environment with one PDF whose single page reads "b1 b2". -/
def corpusEnvB : Env := ⟨some lenEmb, true, [⟨some ["b1 b2".data]⟩], true⟩

/-- The state after successfully loading corpus A. -/
def loadedA : RagState := (load_guidelines corpusEnvA emptyState).1

/-- Counterexample for claim C4 as stated: after the completed
`load_guidelines` call on a missing guidelines directory (which returns
False), the chunk table holds one sentinel entry while the index holds zero
vectors — the one-vector-per-chunk alignment fails. -/
theorem load_fallback_misaligned :
    (load_guidelines noDirEnv emptyState).2 = false
    ∧ (load_guidelines noDirEnv emptyState).1.faiss_index.map
        FaissIndex.ntotal = some 0
    ∧ (load_guidelines noDirEnv emptyState).1.guideline_chunks.length = 1
    ∧ ¬((load_guidelines noDirEnv emptyState).1.faiss_index.map
          FaissIndex.ntotal
        = some (load_guidelines noDirEnv emptyState).1.guideline_chunks.length)
    := by decide

/-- Claim C4 (amended): after a `load_guidelines` call that returns True,
the index holds exactly one vector per chunk in index order: `ntotal` equals
the chunk count and the vector list is exactly the batch encoding of the
chunk table; the fallback (False) paths instead leave an empty index beside
a single sentinel chunk. -/
theorem load_true_alignment (env : Env) (st : RagState)
    (h : (load_guidelines env st).2 = true) :
    ∃ emb ix,
      (load_guidelines env st).1.embedder = some emb
      ∧ (load_guidelines env st).1.faiss_index = some ix
      ∧ ix.ntotal = (load_guidelines env st).1.guideline_chunks.length
      ∧ emb.encode ((load_guidelines env st).1.guideline_chunks)
          = Except.ok ix.vectors := by
  obtain ⟨emb, embeddings, hemb, hne, henc, hstate⟩ :=
    load_guidelines_true_state env st h
  refine ⟨emb, ⟨(embeddings.getD 0 []).length, embeddings⟩,
    by rw [hstate], by rw [hstate], ?_, by rw [hstate]; exact henc⟩
  show embeddings.length
      = (load_guidelines env st).1.guideline_chunks.length
  rw [hstate]
  exact encode_ok_length emb _ _ henc

/-- Witness for the amended C4 at a concrete loaded corpus. -/
theorem load_true_alignment_witness :
    (load_guidelines corpusEnvA emptyState).2 = true
    ∧ ∃ emb ix,
      (load_guidelines corpusEnvA emptyState).1.embedder = some emb
      ∧ (load_guidelines corpusEnvA emptyState).1.faiss_index = some ix
      ∧ ix.ntotal
          = (load_guidelines corpusEnvA emptyState).1.guideline_chunks.length
      ∧ emb.encode
          ((load_guidelines corpusEnvA emptyState).1.guideline_chunks)
        = Except.ok ix.vectors :=
  ⟨by decide, load_true_alignment corpusEnvA emptyState (by decide)⟩

theorem load_run_fallback (env : Env) (st : RagState) (emb : Embedder)
    (vs : List (List ℚ))
    (hemb : env.sentence_transformer = some emb)
    (hmiss : env.guidelines_exists = false ∨ env.pdf_files = [])
    (hs : emb.encode ["No guidelines available".data] = Except.ok vs) :
    load_run env st =
      ([{ st with embedder := some emb },
        { st with
          embedder := some emb,
          faiss_index := some (IndexFlatL2 (vs.getD 0 []).length) },
        { st with
          embedder := some emb,
          faiss_index := some (IndexFlatL2 (vs.getD 0 []).length),
          guideline_chunks := [sentinelChunk] }], false) := by
  rcases hmiss with hm | hm
  · simp [load_run, hemb, hm, hs]
  · cases hex : env.guidelines_exists
    · simp [load_run, hemb, hex, hs]
    · simp [load_run, hemb, hex, hm, hs]

/-- Claim C3 (amended): when the guidelines directory is missing or holds no
PDFs, `load_guidelines` returns False and installs the single sentinel chunk
beside an empty index, and a subsequent `retrieve_context` returns that
sentinel chunk text ("No clinical guidelines available. Please add PDF files
to the guidelines folder.") — not an exception. -/
theorem load_fallback_retrieve_sentinel (env : Env) (st : RagState)
    (emb : Embedder) (vs : List (List ℚ)) (q : PyStr) (v : List ℚ) (k : Nat)
    (hemb : env.sentence_transformer = some emb)
    (hmiss : env.guidelines_exists = false ∨ env.pdf_files = [])
    (hs : emb.encode ["No guidelines available".data] = Except.ok vs)
    (hq : emb.encode1 q = Except.ok v) (hk : 0 < k) :
    (load_guidelines env st).2 = false
    ∧ retrieve_context (load_guidelines env st).1 q k = sentinelChunk := by
  have hrun := load_run_fallback env st emb vs hemb hmiss hs
  constructor
  · show (load_run env st).2 = false
    rw [hrun]
  · have hfinal : (load_guidelines env st).1 =
        { st with
          embedder := some emb,
          faiss_index := some (IndexFlatL2 (vs.getD 0 []).length),
          guideline_chunks := [sentinelChunk] } := by
      show (load_run env st).1.getLastD st = _
      rw [hrun]
      rfl
    rw [hfinal]
    exact retrieve_single_chunk_empty_index emb _ k sentinelChunk q v hq hk

/-- Counterexample for claim C3 as stated: after the fallback load the
retrieval result is the sentinel chunk text, which is not the literal fixed
string "No clinical guidelines available.". -/
theorem load_fallback_not_unloaded_string :
    (load_guidelines noDirEnv emptyState).2 = false
    ∧ retrieve_context (load_guidelines noDirEnv emptyState).1
        "anything".data 3 = sentinelChunk
    ∧ sentinelChunk ≠ "No clinical guidelines available.".data := by
  decide

/-- Witness for the amended C3 at the concrete no-PDFs environment. -/
theorem load_fallback_retrieve_sentinel_witness :
    noPdfEnv.sentence_transformer = some constEmb
    ∧ (noPdfEnv.guidelines_exists = false ∨ noPdfEnv.pdf_files = [])
    ∧ constEmb.encode ["No guidelines available".data]
        = Except.ok [[(0 : ℚ)]]
    ∧ constEmb.encode1 "cough".data = Except.ok [(0 : ℚ)]
    ∧ 0 < 3
    ∧ ((load_guidelines noPdfEnv emptyState).2 = false
      ∧ retrieve_context (load_guidelines noPdfEnv emptyState).1
          "cough".data 3 = sentinelChunk) :=
  ⟨rfl, Or.inr rfl, rfl, rfl, by decide,
    load_fallback_retrieve_sentinel noPdfEnv emptyState constEmb
      [[(0 : ℚ)]] "cough".data [(0 : ℚ)] 3 rfl (Or.inr rfl) rfl rfl
      (by decide)⟩

/-- Counterexample for claim C8 as stated: during a reload from a previously
loaded state, the global state published right after the chunk-table
assignment (line 84) already carries the new corpus's chunk table while the
index is still the old corpus's index — so the new state is not published
atomically after the new index is constructed. -/
theorem load_midstate_mixes_old_and_new :
    (load_run corpusEnvB loadedA).2 = true
    ∧ ((load_run corpusEnvB loadedA).1[1]?).map RagState.guideline_chunks
        = some (load_guidelines corpusEnvB loadedA).1.guideline_chunks
    ∧ ((load_run corpusEnvB loadedA).1[1]?).map
        (fun s => s.faiss_index.map FaissIndex.vectors)
        = some (loadedA.faiss_index.map FaissIndex.vectors)
    ∧ loadedA.faiss_index.map FaissIndex.vectors = some [[(10 : ℚ)]]
    ∧ (load_guidelines corpusEnvB loadedA).1.faiss_index.map
        FaissIndex.vectors = some [[(5 : ℚ)]]
    ∧ ([[(10 : ℚ)]] : List (List ℚ)) ≠ [[(5 : ℚ)]] := by
  decide

/-- Claim C8 (amended): `load_guidelines` mutates the module globals in
stages — embedder, then chunk table, then index — rather than publishing
atomically; nevertheless, once a reload has returned True, the published
chunk table is computed from the new corpus alone, and every subsequent
`retrieve_context` result is assembled only from chunks of the most recently
loaded corpus (or is the fixed retrieval-error string). -/
theorem load_success_publishes_new_corpus (env : Env) (st : RagState)
    (h : (load_guidelines env st).2 = true) :
    (load_guidelines env st).1.guideline_chunks
      = split_into_chunks (extractTexts env) 200
    ∧ ∀ q : PyStr, ∀ k : Nat,
      (∃ l : List PyStr,
        (∀ x ∈ l, x ∈ split_into_chunks (extractTexts env) 200)
        ∧ retrieve_context (load_guidelines env st).1 q k
          = List.intercalate "\n\n".data l)
      ∨ retrieve_context (load_guidelines env st).1 q k
          = "Error retrieving clinical guidelines.".data := by
  obtain ⟨emb, embeddings, hemb, hne, henc, hstate⟩ :=
    load_guidelines_true_state env st h
  refine ⟨by rw [hstate], ?_⟩
  intro q k
  rw [hstate]
  exact retrieve_context_cases emb
    ⟨(embeddings.getD 0 []).length, embeddings⟩
    (split_into_chunks (extractTexts env) 200) q k
    (List.length_pos.mpr hne)

/-- Witness for the amended C8: reloading corpus B over the loaded corpus A
state, then querying. -/
theorem load_success_publishes_new_corpus_witness :
    (load_guidelines corpusEnvB loadedA).2 = true
    ∧ (load_guidelines corpusEnvB loadedA).1.guideline_chunks
        = split_into_chunks (extractTexts corpusEnvB) 200
    ∧ ((∃ l : List PyStr,
        (∀ x ∈ l, x ∈ split_into_chunks (extractTexts corpusEnvB) 200)
        ∧ retrieve_context (load_guidelines corpusEnvB loadedA).1
            "fever".data 3 = List.intercalate "\n\n".data l)
      ∨ retrieve_context (load_guidelines corpusEnvB loadedA).1
          "fever".data 3
        = "Error retrieving clinical guidelines.".data) :=
  ⟨by decide,
    (load_success_publishes_new_corpus corpusEnvB loadedA (by decide)).1,
    (load_success_publishes_new_corpus corpusEnvB loadedA (by decide)).2
      "fever".data 3⟩
